import Mathlib

/-!
Verification of the jsonpatch engine (RFC6902 patch application over a
JSON-like value tree).  Each Go function from jsonpatch.go is shallowly
embedded as an executable Lean definition: in-place mutation becomes
explicit value passing, Go errors become an explicit error type, and a
runtime panic (out-of-bounds slice access, nil dereference) is modelled
as the distinguished outcome `GoErr.goPanic`.
-/

set_option maxHeartbeats 1000000

/-- The JSON value model: Go's `any` tree produced by `encoding/json`
(`nil`, `bool`, `float64`, `string`, `[]any`, `map[string]any`).
Objects are association lists with insertion order preserved and unique
keys; numeric leaves are modelled as integers. -/
inductive JSON where
  | null
  | bool (b : Bool)
  | num (n : Int)
  | str (s : String)
  | arr (elems : List JSON)
  | obj (fields : List (String × JSON))
deriving Repr

/-- Go map lookup `v[k]` (comma-ok form) over the association-list model. -/
def lookupJ : List (String × JSON) → String → Option JSON
  | [], _ => none
  | (k2, v) :: rest, k => if k2 = k then some v else lookupJ rest k

/-- Go map assignment `v[k] = value`: replace the binding in place if the
key exists, otherwise add it. -/
def objSet : List (String × JSON) → String → JSON → List (String × JSON)
  | [], k, value => [(k, value)]
  | (k2, w) :: rest, k, value =>
    if k2 = k then (k, value) :: rest else (k2, w) :: objSet rest k value

/-- Go `delete(v, k)` over the association-list model. -/
def objDel (m : List (String × JSON)) (k : String) : List (String × JSON) :=
  m.filter (fun kv => kv.1 ≠ k)

/-- The error values of jsonpatch.go.  `notExists` is `ErrNotExists`,
`stop` is `ErrStop`; the remaining constructors stand for the distinct
`fmt.Errorf` families the code creates (wrapping with `%w` preserves the
identity that `errors.Is` tests, so each family is one constructor).
`goPanic` marks a Go runtime panic. -/
inductive GoErr where
  | notExists
  | stop
  | badIndex (s : String)
  | indexOutOfRange (size : Nat) (s : String)
  | typeMismatch (what : String)
  | missingMember (what : String)
  | malformedPointer
  | unknownOp (name : String)
  | goPanic
deriving Repr, DecidableEq

/-- The `Patch` configuration struct (the two flags the engine consults;
the JSON output-formatting fields only affect re-encoding and are out of
scope of the claims). -/
structure Patch where
  StrictPathExists : Bool
  SupportNegativeArrayIndex : Bool
deriving Repr, DecidableEq

/-- Model of `New()` with no options: strict path existence, no negative indices. -/
def NewPatch : Patch := { StrictPathExists := true, SupportNegativeArrayIndex := false }

/-- ASCII decimal digit test. -/
def isDigitCh (c : Char) : Bool := decide ('0' ≤ c ∧ c ≤ '9')

/-- Body of the regex `(0|[1-9][0-9]*)` anchored on both sides:
either the single digit 0, or a nonzero digit followed by digits. -/
def numBody : List Char → Bool
  | [] => false
  | c :: cs =>
    (c = '0' && cs.isEmpty) || ((decide ('1' ≤ c ∧ c ≤ '9')) && cs.all isDigitCh)

/-- Regex `indexRE`: `^(0|([1-9][0-9]*))$`. -/
def indexRE (s : String) : Bool := numBody s.data

/-- Regex `negativeIndexRE`: `^-?(0|([1-9][0-9]*))$`. -/
def negativeIndexRE (s : String) : Bool :=
  match s.data with
  | '-' :: rest => numBody rest
  | l => numBody l

/-- Value of a list of decimal digits. -/
def digitsVal (l : List Char) : Nat :=
  l.foldl (fun a c => a * 10 + (c.toNat - 48)) 0

/-- Model of `strconv.Atoi` on strings already vetted by the index regexes:
an optional leading minus sign followed by decimal digits.  (Machine-int
overflow is not modelled: for regex-matched tokens large enough to
overflow, Go fails with a range error where this model fails the bounds
check; both are failures.) -/
def atoi (s : String) : Int :=
  match s.data with
  | c :: rest => if c = '-' then -(digitsVal rest : Int) else (digitsVal (c :: rest) : Int)
  | [] => (digitsVal [] : Int)

/-- Model of `Patch.ParseArrayIndex`, translated line by line from the source
including the unreachable `if i < 0 { return }` branch of the
non-negative mode (a naked return of `i, nil` before the bounds check). -/
def Patch.ParseArrayIndex (p : Patch) (size : Nat) (s : String) : Except GoErr Int :=
  if s = "-" then
    if size = 0 then .ok 0 else .ok size
  else if p.SupportNegativeArrayIndex then
    if negativeIndexRE s then
      let i := atoi s
      let i := if i < 0 then size + i else i
      if i < 0 ∨ i > size then .error (.indexOutOfRange size s) else .ok i
    else .error (.badIndex s)
  else
    if indexRE s then
      let i := atoi s
      if i < 0 then .ok i
      else if i < 0 ∨ i > size then .error (.indexOutOfRange size s) else .ok i
    else .error (.badIndex s)

/-- Model of `sliceRemove(s, i)`: `append(s[:i], s[i+1:]...)`.  The reslicing
`s[i+1:]` is legal only for `i < len(s)`; otherwise Go panics. -/
def sliceRemove {α : Type} (s : List α) (i : Nat) : Option (List α) :=
  if i < s.length then some (s.take i ++ s.drop (i + 1)) else none

/-- Model of `sliceInsert(s, i, v)`: append when `i == len(s)`; otherwise copy
into a fresh slice of length `len(s)+1` around position `i`.  For
`i > len(s)` the write `n[i] = v` indexes past the fresh slice's length
and Go panics. -/
def sliceInsert {α : Type} (s : List α) (i : Nat) (v : α) : Option (List α) :=
  if i = s.length then some (s ++ [v])
  else if i < s.length then some (s.take i ++ v :: s.drop i)
  else none

/-- The single-pass replacement performed by
`strings.NewReplacer("~1", "/", "~0", "~")`: scan left to right, at each
position try the patterns in order, emit the replacement and skip the
match, else emit one character. -/
def replacerPass : List Char → List Char
  | [] => []
  | [c] => [c]
  | c :: d :: rest =>
    if c = '~' ∧ d = '1' then '/' :: replacerPass rest
    else if c = '~' ∧ d = '0' then '~' :: replacerPass rest
    else c :: replacerPass (d :: rest)

/-- Model of `unescapePath`: apply the replacer to the whole segment string. -/
def unescapePath (s : String) : String := String.mk (replacerPass s.data)

/-- Model of `strings.Split(s, "/")` over the character list: the pieces between
the slashes (always one more piece than there are slashes). -/
def splitSlash : List Char → List (List Char)
  | [] => [[]]
  | '/' :: rest => [] :: splitSlash rest
  | c :: rest =>
    match splitSlash rest with
    | [] => [[c]]
    | piece :: more => (c :: piece) :: more

/-- Model of `JSONPointer`: holds the original (still escaped) pointer string. -/
structure JSONPointer where
  origin : String
deriving Repr, DecidableEq

/-- Model of `NewJSONPointer`. -/
def NewJSONPointer (s : String) : JSONPointer := ⟨s⟩

/-- Model of `JSONPointer.IsTheWholeDocument`. -/
def JSONPointer.IsTheWholeDocument (p : JSONPointer) : Bool := p.origin = ""

/-- Model of `JSONPointer.Path`: split on `/`, unescape every piece, drop the
piece before the first slash. -/
def JSONPointer.Path (p : JSONPointer) : List String :=
  (((splitSlash p.origin.data).map (fun l => String.mk (replacerPass l)))).tail

/-- Model of `JSONPointer.Check`: empty is fine, otherwise must start with `/`. -/
def JSONPointer.Check (p : JSONPointer) : Option GoErr :=
  match p.origin.data with
  | [] => none
  | c :: _ => if c = '/' then none else some .malformedPointer

/-- Model of `JSONPointer.ParentPath`: all but the last token. -/
def JSONPointer.ParentPath (p : JSONPointer) : List String := p.Path.dropLast

/-- Model of `JSONPointer.LastToken`: the last token, or the empty string. -/
def JSONPointer.LastToken (p : JSONPointer) : String := p.Path.getLastD ""

/-- Model of `JSONPointer.SameParent`: the Go loop (nil-nil shortcut, length
check, element-wise comparison) amounts to equality of parent paths. -/
def JSONPointer.SameParent (p o : JSONPointer) : Bool := p.ParentPath = o.ParentPath

/-- A setter in the functional model: given a new child value it returns
the updated container (the Go closure mutates the captured container in
place; here the rebuilt container is handed back instead). -/
def Setter : Type := JSON → JSON

/-- Model of `Patch.visitPathPart`: one descent step through an object key or an
array index.  The element read `v[i]` is guarded the way Go guards it
(`i == len(v)` was already excluded, so the read is in range). -/
def Patch.visitPathPart (p : Patch) (o : JSON) (part : String) :
    Except GoErr (JSON × Setter) :=
  match o with
  | .obj v =>
    match lookupJ v part with
    | none => .error .notExists
    | some g => .ok (g, fun n => .obj (objSet v part n))
  | .arr v =>
    if v.length = 0 then .error .notExists
    else
      match p.ParseArrayIndex v.length part with
      | .error e => .error e
      | .ok i =>
        if (v.length : Int) = i then .error .notExists
        else
          match v[i.toNat]? with
          | some g => .ok (g, fun n => .arr (v.set i.toNat n))
          | none => .error .goPanic
  | _ => .error (.typeMismatch "visit")

/-- Model of `Patch.VisitPath`: fold `visitPathPart` over the token list.  The Go
loop keeps only the innermost setter and relies on aliasing of the outer
containers; the functional equivalent composes the setters so the
returned setter rebuilds the whole tree.  With no tokens the visited
node is the root and the setter rebinds the root. -/
def Patch.VisitPath (p : Patch) (doc : JSON) : List String → Except GoErr (JSON × Setter)
  | [] => .ok (doc, fun n => n)
  | part :: rest =>
    match p.visitPathPart doc part with
    | .error e => .error e
    | .ok (child, set1) =>
      match p.VisitPath child rest with
      | .error e => .error e
      | .ok (v, set2) => .ok (v, fun n => set1 (set2 n))

/-- Model of `Patch.AddValue`. -/
def Patch.AddValue (p : Patch) (o : JSON) (key : String) (value : JSON) :
    Except GoErr JSON :=
  match o with
  | .obj v => .ok (.obj (objSet v key value))
  | .arr v =>
    match p.ParseArrayIndex v.length key with
    | .error e => .error e
    | .ok i =>
      match sliceInsert v i.toNat value with
      | some v2 => .ok (.arr v2)
      | none => .error .goPanic
  | _ => .error (.typeMismatch "add")

/-- Model of `Patch.ReplaceValue` (the setter parameter is ignored by the source;
the object branch overwrites the key, the array branch writes the
element in place). -/
def Patch.ReplaceValue (p : Patch) (o : JSON) (key : String) (value : JSON) :
    Except GoErr JSON :=
  match o with
  | .obj v =>
    if p.StrictPathExists ∧ (lookupJ v key).isNone then .error .notExists
    else .ok (.obj (objSet v key value))
  | .arr v =>
    match p.ParseArrayIndex v.length key with
    | .error e => .error e
    | .ok i =>
      if (v.length : Int) = i then
        if p.StrictPathExists then .error .notExists else .ok (.arr v)
      else .ok (.arr (v.set i.toNat value))
  | _ => .error (.typeMismatch "replace")

/-- Model of `Patch.RemoveValue`. -/
def Patch.RemoveValue (p : Patch) (o : JSON) (key : String) : Except GoErr JSON :=
  match o with
  | .obj v =>
    if p.StrictPathExists ∧ (lookupJ v key).isNone then .error .notExists
    else .ok (.obj (objDel v key))
  | .arr v =>
    match p.ParseArrayIndex v.length key with
    | .error _ =>
      if p.StrictPathExists then .error .notExists else .ok (.arr v)
    | .ok i =>
      if (v.length : Int) = i then
        if p.StrictPathExists then .error .notExists else .ok (.arr v)
      else
        match sliceRemove v i.toNat with
        | some v2 => .ok (.arr v2)
        | none => .error .goPanic
  | _ => .error (.typeMismatch "remove")

/-- Model of `Patch.MoveValue`: the same-parent move.  The array branch resolves
both indices against the pre-removal length, no-ops on equality, and
otherwise reads `v[fi]`, removes, re-inserts, and rewrites `v[ti]`; each
of those slice accesses panics when its index is out of range. -/
def Patch.MoveValue (p : Patch) (o : JSON) (fromKey toKey : String) :
    Except GoErr JSON :=
  match o with
  | .obj v =>
    if p.StrictPathExists ∧ (lookupJ v fromKey).isNone then .error .notExists
    else
      match lookupJ v fromKey with
      | none => .ok (.obj v)
      | some e => .ok (.obj (objSet (objDel v fromKey) toKey e))
  | .arr v =>
    match p.ParseArrayIndex v.length fromKey with
    | .error _ =>
      if p.StrictPathExists then .error .notExists else .ok (.arr v)
    | .ok fi =>
      match p.ParseArrayIndex v.length toKey with
      | .error _ =>
        if p.StrictPathExists then .error .notExists else .ok (.arr v)
      | .ok ti =>
        if fi = ti then .ok (.arr v)
        else
          match v[fi.toNat]? with
          | none => .error .goPanic
          | some e =>
            match sliceRemove v fi.toNat with
            | none => .error .goPanic
            | some v1 =>
              match sliceInsert v1 ti.toNat e with
              | none => .error .goPanic
              | some v2 =>
                if ti.toNat < v2.length then .ok (.arr (v2.set ti.toNat e))
                else .error .goPanic
  | _ => .error (.typeMismatch "move")

mutual
/-- Model of `reflect.DeepEqual` restricted to JSON trees: scalars by value,
slices element-wise, maps by equal length and key-wise deep equality of
the values. -/
def deepEqual : JSON → JSON → Bool
  | .null, .null => true
  | .bool a, .bool b => a == b
  | .num a, .num b => a == b
  | .str a, .str b => a == b
  | .arr a, .arr b => deepEqualList a b
  | .obj a, .obj b => a.length == b.length && deepEqualObj a b
  | _, _ => false
termination_by a _ => (sizeOf a, 2, 0)

/-- Element-wise deep equality of two slices. -/
def deepEqualList : List JSON → List JSON → Bool
  | [], [] => true
  | x :: xs, y :: ys => deepEqual x y && deepEqualList xs ys
  | _, _ => false
termination_by l _ => (sizeOf l, 1, 0)

/-- Every binding of the first map is matched by a deep-equal binding in
the second. -/
def deepEqualObj : List (String × JSON) → List (String × JSON) → Bool
  | [], _ => true
  | (k, v) :: rest, b => findDeepEqual k v b && deepEqualObj rest b
termination_by l _ => (sizeOf l, 1, 0)

/-- Look the key up in the map and deep-compare the value found. -/
def findDeepEqual (k : String) (v : JSON) : List (String × JSON) → Bool
  | [] => false
  | (k2, w) :: rest => if k2 == k then deepEqual v w else findDeepEqual k v rest
termination_by b => (sizeOf v, 3, sizeOf b)
end

mutual
/-- Model of `deepCopy`: recursive type switch cloning slices and maps, returning
scalars as they are. -/
def deepCopy : JSON → JSON
  | .arr v => .arr (deepCopyList v)
  | .obj v => .obj (deepCopyObj v)
  | o => o

/-- Clone of a slice: fresh slice, each element deep-copied. -/
def deepCopyList : List JSON → List JSON
  | [] => []
  | x :: xs => deepCopy x :: deepCopyList xs

/-- Clone of a map: fresh map, each value deep-copied. -/
def deepCopyObj : List (String × JSON) → List (String × JSON)
  | [] => []
  | (k, v) :: rest => (k, deepCopy v) :: deepCopyObj rest
end

/-- Model of `Operation`: the wire-level operation record.  Go uses pointers to
distinguish an absent member from a present one (including a present
`"value": null`, which is `some JSON.null` here). -/
structure Operation where
  OP : Option String
  Path : Option String
  Value : Option JSON
  From : Option String

/-- Model of `Operation.check`: op and path members must be present and both
pointers must pass the syntax check. -/
def Operation.check (o : Operation) : Option GoErr :=
  match o.OP with
  | none => some (.missingMember "op")
  | some _ =>
    match o.Path with
    | none => some (.missingMember "path")
    | some path =>
      match (NewJSONPointer path).Check with
      | some e => some e
      | none =>
        match o.From with
        | none => none
        | some f => (NewJSONPointer f).Check

/-- The registry of `New()`: exactly the six standard operations. -/
def isBuiltinOp (name : String) : Bool :=
  name = "add" || name = "remove" || name = "replace" ||
  name = "move" || name = "copy" || name = "test"

/-- The per-extension `Check` methods: add, replace and test require a
present value member; move and copy require a present from member. -/
def extCheck (name : String) (op : Operation) : Option GoErr :=
  if name = "add" ∨ name = "replace" ∨ name = "test" then
    if op.Value.isNone then some (.missingMember "value") else none
  else if name = "move" ∨ name = "copy" then
    if op.From.isNone then some (.missingMember "from") else none
  else none

/-- Model of `Patch.Check`: validate every operation in list order; the first
failure aborts the whole list. -/
def Patch.Check (p : Patch) : List Operation → Option GoErr
  | [] => none
  | op :: rest =>
    match op.check with
    | some e => some e
    | none =>
      match op.OP with
      | none => some .goPanic
      | some name =>
        if ¬ isBuiltinOp name then some (.unknownOp name)
        else
          match extCheck name op with
          | some e => some e
          | none => p.Check rest

/-- Model of `addExtension.Apply`: whole-document path replaces the root,
otherwise navigate to the parent and AddValue at the last token.  A nil
`op.Path`/`op.Value` dereference cannot happen after Check; it is
modelled as a panic. -/
def addApply (p : Patch) (doc : JSON) (op : Operation) : JSON × Option GoErr :=
  match op.Path, op.Value with
  | some path, some value =>
    let parts := NewJSONPointer path
    if parts.IsTheWholeDocument then (value, none)
    else
      match p.VisitPath doc parts.ParentPath with
      | .error e => (doc, some e)
      | .ok (parent, set) =>
        match p.AddValue parent parts.LastToken value with
        | .error e => (doc, some e)
        | .ok parent2 => (set parent2, none)
  | _, _ => (doc, some .goPanic)

/-- Model of `removeExtension.Apply`. -/
def removeApply (p : Patch) (doc : JSON) (op : Operation) : JSON × Option GoErr :=
  match op.Path with
  | some path =>
    let parts := NewJSONPointer path
    match p.VisitPath doc parts.ParentPath with
    | .error e => (doc, some e)
    | .ok (parent, set) =>
      match p.RemoveValue parent parts.LastToken with
      | .error e => (doc, some e)
      | .ok parent2 => (set parent2, none)
  | none => (doc, some .goPanic)

/-- Model of `replaceExtension.Apply`. -/
def replaceApply (p : Patch) (doc : JSON) (op : Operation) : JSON × Option GoErr :=
  match op.Path, op.Value with
  | some path, some value =>
    let parts := NewJSONPointer path
    if parts.IsTheWholeDocument then (value, none)
    else
      match p.VisitPath doc parts.ParentPath with
      | .error e => (doc, some e)
      | .ok (parent, set) =>
        match p.ReplaceValue parent parts.LastToken value with
        | .error e => (doc, some e)
        | .ok parent2 => (set parent2, none)
  | _, _ => (doc, some .goPanic)

/-- Model of `moveExtension.Apply`: resolve the from parent, fetch the moved
value with a single descent step (strict mode turns a fetch failure into
an error, non-strict into a no-op), then either delegate to the
same-parent MoveValue or remove at from and add at path. -/
def moveApply (p : Patch) (doc : JSON) (op : Operation) : JSON × Option GoErr :=
  match op.Path, op.From with
  | some path, some f =>
    let parts := NewJSONPointer path
    let fromParts := NewJSONPointer f
    match p.VisitPath doc fromParts.ParentPath with
    | .error e => (doc, some e)
    | .ok (fromParent, fromSet) =>
      match p.visitPathPart fromParent fromParts.LastToken with
      | .error e => if p.StrictPathExists then (doc, some e) else (doc, none)
      | .ok (value, _) =>
        if parts.SameParent fromParts then
          match p.MoveValue fromParent fromParts.LastToken parts.LastToken with
          | .error e => (doc, some e)
          | .ok c => (fromSet c, none)
        else
          match p.RemoveValue fromParent fromParts.LastToken with
          | .error e => (doc, some e)
          | .ok c =>
            let doc1 := fromSet c
            match p.VisitPath doc1 parts.ParentPath with
            | .error e => (doc1, some e)
            | .ok (parent, set) =>
              match p.AddValue parent parts.LastToken value with
              | .error e => (doc1, some e)
              | .ok c2 => (set c2, none)
  | _, _ => (doc, some .goPanic)

/-- Model of `copyExtension.Apply`: navigate to path's parent, fetch the from
value by full navigation, deep-copy it and add the clone at the last
token of path. -/
def copyApply (p : Patch) (doc : JSON) (op : Operation) : JSON × Option GoErr :=
  match op.Path, op.From with
  | some path, some f =>
    let parts := NewJSONPointer path
    let fromParts := NewJSONPointer f
    match p.VisitPath doc parts.ParentPath with
    | .error e => (doc, some e)
    | .ok (parent, set) =>
      match p.VisitPath doc fromParts.Path with
      | .error e => (doc, some e)
      | .ok (value, _) =>
        match p.AddValue parent parts.LastToken (deepCopy value) with
        | .error e => (doc, some e)
        | .ok c => (set c, none)
  | _, _ => (doc, some .goPanic)

/-- Model of `testExtension.Apply`: fetch the value at path; a resolution failure
is a hard error in strict mode and `ErrStop` otherwise; then deep-compare
with the expected value, `ErrStop` on mismatch.  The document is never
touched. -/
def testApply (p : Patch) (doc : JSON) (op : Operation) : JSON × Option GoErr :=
  match op.Path, op.Value with
  | some path, some expect =>
    let parts := NewJSONPointer path
    match p.VisitPath doc parts.Path with
    | .error e => if p.StrictPathExists then (doc, some e) else (doc, some .stop)
    | .ok (value, _) =>
      if deepEqual value expect then (doc, none) else (doc, some .stop)
  | _, _ => (doc, some .goPanic)

/-- Dispatch on the operation name over the builtin registry. -/
def extApply (p : Patch) (doc : JSON) (op : Operation) : JSON × Option GoErr :=
  match op.OP with
  | some name =>
    if name = "add" then addApply p doc op
    else if name = "remove" then removeApply p doc op
    else if name = "replace" then replaceApply p doc op
    else if name = "move" then moveApply p doc op
    else if name = "copy" then copyApply p doc op
    else if name = "test" then testApply p doc op
    else (doc, some .goPanic)
  | none => (doc, some .goPanic)

/-- Outcome of `applyAny`: either the check failed before any mutation,
or an operation stopped (`ErrStop`) or failed hard, or the Go program
panicked. -/
inductive ApplyErr where
  | checkFailed (e : GoErr)
  | stopped (e : GoErr)
  | failed (e : GoErr)
  | panicked
deriving Repr, DecidableEq

/-- The apply loop of `applyAny`: run each operation in order on the
tree as mutated so far; a `notExists` failure is skipped in non-strict
mode, `ErrStop` ends the run as "operation stopped", anything else as
"operation failed". -/
def applyOps (p : Patch) (doc : JSON) : List Operation → JSON × Option ApplyErr
  | [] => (doc, none)
  | op :: rest =>
    match extApply p doc op with
    | (doc1, none) => applyOps p doc1 rest
    | (doc1, some e) =>
      match e with
      | .goPanic => (doc1, some .panicked)
      | .notExists =>
        if p.StrictPathExists then (doc1, some (.failed .notExists))
        else applyOps p doc1 rest
      | .stop => (doc1, some (.stopped .stop))
      | e2 => (doc1, some (.failed e2))

/-- Model of `Patch.applyAny`: `Check` runs over the whole list first and aborts
it before any mutation; only then does the apply loop start. -/
def Patch.applyAny (p : Patch) (doc : JSON) (ops : List Operation) :
    JSON × Option ApplyErr :=
  match p.Check ops with
  | some e => (doc, some (.checkFailed e))
  | none => applyOps p doc ops

/-- JSON values with an allocation identity on every container: the
model of the Go heap needed to speak about aliasing.  A container's id
stands for the address of its backing map or slice. -/
inductive HJSON where
  | null
  | bool (b : Bool)
  | num (n : Int)
  | str (s : String)
  | arr (id : Nat) (elems : List HJSON)
  | obj (id : Nat) (fields : List (String × HJSON))
deriving Repr

mutual
/-- Model of `deepCopy` over the heap model: every container of the result is a
fresh allocation.  The allocator is a counter; each clone consumes ids
starting at the counter value, which the Go runtime guarantees are
distinct from every live address. -/
def deepCopyH : Nat → HJSON → Nat × HJSON
  | n, .arr _ l => ((deepCopyHList (n + 1) l).1, .arr n (deepCopyHList (n + 1) l).2)
  | n, .obj _ m => ((deepCopyHObj (n + 1) m).1, .obj n (deepCopyHObj (n + 1) m).2)
  | n, o => (n, o)

/-- Clone the elements of a slice, threading the allocator. -/
def deepCopyHList : Nat → List HJSON → Nat × List HJSON
  | n, [] => (n, [])
  | n, x :: xs =>
    ((deepCopyHList (deepCopyH n x).1 xs).1,
      (deepCopyH n x).2 :: (deepCopyHList (deepCopyH n x).1 xs).2)

/-- Clone the bindings of a map, threading the allocator. -/
def deepCopyHObj : Nat → List (String × HJSON) → Nat × List (String × HJSON)
  | n, [] => (n, [])
  | n, (k, v) :: rest =>
    ((deepCopyHObj (deepCopyH n v).1 rest).1,
      (k, (deepCopyH n v).2) :: (deepCopyHObj (deepCopyH n v).1 rest).2)
end

mutual
/-- All container ids occurring in a value. -/
def idsOf : HJSON → List Nat
  | .arr i l => i :: idsOfList l
  | .obj i m => i :: idsOfObj m
  | _ => []

/-- All container ids occurring in a slice. -/
def idsOfList : List HJSON → List Nat
  | [] => []
  | x :: xs => idsOf x ++ idsOfList xs

/-- All container ids occurring in a map. -/
def idsOfObj : List (String × HJSON) → List Nat
  | [] => []
  | (_, v) :: rest => idsOf v ++ idsOfObj rest
end

mutual
/-- Forget allocation identities, recovering the plain value tree. -/
def eraseIds : HJSON → JSON
  | .null => .null
  | .bool b => .bool b
  | .num n => .num n
  | .str s => .str s
  | .arr _ l => .arr (eraseIdsList l)
  | .obj _ m => .obj (eraseIdsObj m)

/-- Forget allocation identities in a slice. -/
def eraseIdsList : List HJSON → List JSON
  | [] => []
  | x :: xs => eraseIds x :: eraseIdsList xs

/-- Forget allocation identities in a map. -/
def eraseIdsObj : List (String × HJSON) → List (String × JSON)
  | [] => []
  | (k, v) :: rest => (k, eraseIds v) :: eraseIdsObj rest
end

theorem insertIdx_eq_take_cons_drop {α : Type} (v : α) :
    ∀ (i : Nat) (s : List α), i ≤ s.length →
      s.insertIdx i v = s.take i ++ v :: s.drop i
  | 0, s, _ => by simp
  | i + 1, [], h => by simp at h
  | i + 1, a :: s, h => by
    simp only [List.insertIdx_succ_cons, List.take_succ_cons, List.drop_succ_cons,
      List.cons_append]
    exact congrArg (a :: ·) (insertIdx_eq_take_cons_drop v i s (Nat.le_of_succ_le_succ h))

theorem eraseIdx_eq_take_append_drop {α : Type} :
    ∀ (i : Nat) (s : List α), i < s.length →
      s.eraseIdx i = s.take i ++ s.drop (i + 1)
  | _, [], h => by simp at h
  | 0, a :: s, _ => by simp
  | i + 1, a :: s, h => by
    simp only [List.eraseIdx_cons_succ, List.take_succ_cons, List.drop_succ_cons,
      List.cons_append]
    exact congrArg (a :: ·) (eraseIdx_eq_take_append_drop i s (Nat.lt_of_succ_lt_succ h))

theorem sliceInsert_eq_insertIdx {α : Type} (s : List α) (i : Nat) (v : α)
    (h : i ≤ s.length) : sliceInsert s i v = some (s.insertIdx i v) := by
  unfold sliceInsert
  rcases Nat.lt_or_ge i s.length with hlt | hge
  · rw [if_neg (Nat.ne_of_lt hlt), if_pos hlt, insertIdx_eq_take_cons_drop v i s h]
  · have heq : i = s.length := Nat.le_antisymm h hge
    rw [if_pos heq, heq, List.insertIdx_length_self]

theorem sliceRemove_eq_eraseIdx {α : Type} (s : List α) (i : Nat)
    (h : i < s.length) : sliceRemove s i = some (s.eraseIdx i) := by
  unfold sliceRemove
  rw [if_pos h, eraseIdx_eq_take_append_drop i s h]

/-- C9: for every sequence `s`, value `v` and index `i ≤ len(s)`,
inserting `v` at `i` with `sliceInsert` and then removing index `i` with
`sliceRemove` restores `s` exactly (and neither call panics). -/
theorem sliceInsert_sliceRemove_inverse {α : Type} (s : List α) (v : α) (i : Nat)
    (h : i ≤ s.length) :
    (sliceInsert s i v).bind (fun t => sliceRemove t i) = some s := by
  rw [sliceInsert_eq_insertIdx s i v h, Option.some_bind]
  have hlen : (s.insertIdx i v).length = s.length + 1 := List.length_insertIdx i s h
  have hlt : i < (s.insertIdx i v).length := by omega
  rw [sliceRemove_eq_eraseIdx _ i hlt, List.eraseIdx_insertIdx i s]

/-- Witness for C9 at a concrete input. -/
theorem sliceInsert_sliceRemove_inverse_witness :
    (sliceInsert [1, 2, 3] 1 (9 : Nat)).bind (fun t => sliceRemove t 1) = some [1, 2, 3] :=
  sliceInsert_sliceRemove_inverse [1, 2, 3] 9 1 (by decide)

theorem numBody_head_not_minus {c : Char} {cs : List Char}
    (h : numBody (c :: cs) = true) : c ≠ '-' := by
  intro hc
  subst hc
  simp [numBody] at h

theorem atoi_nonneg_of_indexRE (s : String) (h : indexRE s = true) : 0 ≤ atoi s := by
  unfold indexRE at h
  unfold atoi
  rcases hd : s.data with _ | ⟨c, cs⟩
  · rw [hd] at h; simp [numBody] at h
  · rw [hd] at h
    have hne := numBody_head_not_minus h
    simp only [if_neg hne]
    exact Int.ofNat_nonneg _

theorem ParseArrayIndex_ok_bounds (p : Patch) (size : Nat) (s : String) (i : Int)
    (h : p.ParseArrayIndex size s = .ok i) : 0 ≤ i ∧ i ≤ size := by
  simp only [Patch.ParseArrayIndex] at h
  split_ifs at h
  all_goals simp only [Except.ok.injEq] at h
  all_goals try subst h
  all_goals
    first
      | omega
      | (exact absurd (atoi_nonneg_of_indexRE s (by assumption)) (by omega))

/-- Rendering of claim C3's description of `ParseArrayIndex`: `-`
resolves to the size (0 for an empty array); with negative support
disabled exactly the tokens matching `^(0|[1-9][0-9]*)$` are accepted,
with it enabled exactly those matching `^-?(0|[1-9][0-9]*)$`, a negative
parsed value being rewritten to `size + i`; and a resolved index is
returned successfully if and only if `0 ≤ i ≤ size`, an
index-out-of-range error being reported otherwise. -/
def ParseArrayIndexClaimed (p : Patch) (size : Nat) (s : String) : Except GoErr Int :=
  let resolved : Except GoErr Int :=
    if s = "-" then .ok (if size = 0 then 0 else (size : Int))
    else if p.SupportNegativeArrayIndex then
      if negativeIndexRE s then
        let i := atoi s
        .ok (if i < 0 then size + i else i)
      else .error (.badIndex s)
    else
      if indexRE s then .ok (atoi s) else .error (.badIndex s)
  match resolved with
  | .error e => .error e
  | .ok i => if 0 ≤ i ∧ i ≤ size then .ok i else .error (.indexOutOfRange size s)

/-- C3: `ParseArrayIndex` behaves exactly as claimed — the `-` token
resolves to the size (0 when empty) and always passes the bounds check;
each mode accepts exactly its regex; negative parsed values are shifted
by the size; and success is equivalent to the resolved index lying in
`[0, size]`.  (The source's early `return` for `-` and its unreachable
negative-value return in non-negative mode do not change the function.) -/
theorem ParseArrayIndex_matches_claim (p : Patch) (size : Nat) (s : String) :
    p.ParseArrayIndex size s = ParseArrayIndexClaimed p size s := by
  simp only [Patch.ParseArrayIndex, ParseArrayIndexClaimed]
  split_ifs <;> try rfl
  all_goals simp only []
  all_goals split_ifs
  all_goals
    first
      | rfl
      | omega
      | (exact absurd (atoi_nonneg_of_indexRE s (by assumption)) (by omega))

/-- C5: for an array, a key resolving to the array length (the append
slot) makes `ReplaceValue` fail with `ErrNotExists` in strict mode and
leave the array unchanged in non-strict mode; a key resolving strictly
below the length overwrites that element in place. -/
theorem ReplaceValue_array_append_slot (p : Patch) (l : List JSON) (key : String)
    (value : JSON) (i : Int) (h : p.ParseArrayIndex l.length key = .ok i) :
    (i = (l.length : Int) →
      (p.StrictPathExists = true →
        p.ReplaceValue (.arr l) key value = .error .notExists) ∧
      (p.StrictPathExists = false →
        p.ReplaceValue (.arr l) key value = .ok (.arr l))) ∧
    (i.toNat < l.length →
      p.ReplaceValue (.arr l) key value = .ok (.arr (l.set i.toNat value))) := by
  have hb := ParseArrayIndex_ok_bounds p l.length key i h
  refine ⟨fun hi => ⟨fun hs => ?_, fun hs => ?_⟩, fun hlt => ?_⟩
  · simp only [Patch.ReplaceValue, h]
    rw [if_pos hi.symm, hs]
    simp
  · simp only [Patch.ReplaceValue, h]
    rw [if_pos hi.symm, hs]
    simp
  · simp only [Patch.ReplaceValue, h]
    rw [if_neg (by omega : ¬ ((l.length : Int) = i))]

/-- Witness for C5: replacing index 2 of a two-element array fails with
`ErrNotExists` under the default strict configuration. -/
theorem ReplaceValue_array_append_slot_witness :
    NewPatch.ReplaceValue (.arr [.num 1, .num 2]) "2" (.num 9) = .error .notExists :=
  ((ReplaceValue_array_append_slot NewPatch [.num 1, .num 2] "2" (.num 9) 2 rfl).1
    rfl).1 rfl

theorem set_insertIdx_self {α : Type} (e : α) :
    ∀ (i : Nat) (l : List α), i ≤ l.length →
      (l.insertIdx i e).set i e = l.insertIdx i e
  | 0, l, _ => by simp
  | i + 1, [], h => by simp at h
  | i + 1, a :: l, h => by
    simp only [List.insertIdx_succ_cons, List.set_cons_succ]
    exact congrArg (a :: ·) (set_insertIdx_self e i l (Nat.le_of_succ_le_succ h))

/-- C1 (amended): for the same-parent array move, when both index
tokens resolve successfully and to equal indices the move is a no-op;
when they resolve to distinct indices that are both strictly below the
pre-removal length, the element at the from index is removed and
re-inserted at the to index.  (When the distinct resolved indices
include the append slot `len`, the code goes out of bounds instead; see
the counterexample.) -/
theorem MoveValue_array_same_parent_spec (p : Patch) (l : List JSON)
    (fromKey toKey : String) (fi ti : Int)
    (hf : p.ParseArrayIndex l.length fromKey = .ok fi)
    (ht : p.ParseArrayIndex l.length toKey = .ok ti) :
    (fi = ti → p.MoveValue (.arr l) fromKey toKey = .ok (.arr l)) ∧
    (fi ≠ ti → ∀ (hfi : fi.toNat < l.length), ti.toNat < l.length →
      p.MoveValue (.arr l) fromKey toKey =
        .ok (.arr ((l.eraseIdx fi.toNat).insertIdx ti.toNat l[fi.toNat]))) := by
  have hbf := ParseArrayIndex_ok_bounds p l.length fromKey fi hf
  have hbt := ParseArrayIndex_ok_bounds p l.length toKey ti ht
  constructor
  · intro he
    simp only [Patch.MoveValue, hf, ht, if_pos he]
  · intro hne hfi hti
    have hlen : (l.eraseIdx fi.toNat).length = l.length - 1 := by
      rw [List.length_eraseIdx]
      rw [if_pos hfi]
    have hinsle : ti.toNat ≤ (l.eraseIdx fi.toNat).length := by omega
    have hinslen : ((l.eraseIdx fi.toNat).insertIdx ti.toNat l[fi.toNat]).length
        = (l.eraseIdx fi.toNat).length + 1 :=
      List.length_insertIdx ti.toNat _ hinsle
    simp only [Patch.MoveValue, hf, ht, if_neg hne,
      List.getElem?_eq_getElem hfi,
      sliceRemove_eq_eraseIdx l fi.toNat hfi,
      sliceInsert_eq_insertIdx _ ti.toNat _ hinsle]
    rw [if_pos (by omega : ti.toNat < ((l.eraseIdx fi.toNat).insertIdx ti.toNat l[fi.toNat]).length)]
    rw [set_insertIdx_self _ ti.toNat _ hinsle]

/-- Witness for C1's amended statement: moving index 2 to index 0 in
`[1, 2, 3]` yields `[3, 1, 2]`. -/
theorem MoveValue_array_same_parent_spec_witness :
    NewPatch.MoveValue (.arr [.num 1, .num 2, .num 3]) "2" "0" =
      .ok (.arr [.num 3, .num 1, .num 2]) := by
  have h := (MoveValue_array_same_parent_spec NewPatch [.num 1, .num 2, .num 3]
    "2" "0" 2 0 rfl rfl).2 (by decide) (by decide) (by decide)
  exact h

/-- Counterexample to C1 as stated: on `[1, 2, 3]` the tokens `"0"` and
`"3"` both resolve successfully against the pre-removal length (to the
distinct indices 0 and 3), yet the move neither removes-and-reinserts
nor no-ops: the insertion step indexes past the end of the post-removal
slice and the program panics. -/
theorem MoveValue_append_slot_counterexample :
    NewPatch.ParseArrayIndex 3 "0" = .ok 0 ∧
    NewPatch.ParseArrayIndex 3 "3" = .ok 3 ∧
    NewPatch.MoveValue (.arr [.num 1, .num 2, .num 3]) "0" "3" = .error .goPanic ∧
    NewPatch.MoveValue (.arr [.num 1, .num 2, .num 3]) "0" "3" ≠
      .ok (.arr [.num 2, .num 3, .num 1]) :=
  ⟨rfl, rfl, rfl, fun h => Except.noConfusion h⟩

/-- C2: the remove-then-insert sequence of the array move is not
memory-safe for every pair of accepted tokens: with both `"0"` and `"-"`
accepted by `ParseArrayIndex` against size 3, the insert step writes
index 3 of the length-3 intermediate slice — a Go runtime panic (index
out of range), observed here as the model's panic outcome. -/
theorem MoveValue_append_slot_out_of_bounds :
    NewPatch.ParseArrayIndex 3 "0" = .ok 0 ∧
    NewPatch.ParseArrayIndex 3 "-" = .ok 3 ∧
    NewPatch.MoveValue (.arr [.num 1, .num 2, .num 3]) "0" "-" = .error .goPanic :=
  ⟨rfl, rfl, rfl⟩

/-- C4: when static validation of the operation list fails (missing
op/path member, malformed pointer, unknown operation name, or a failing
handler check — every failure `Patch.Check` can produce), `applyAny`
reports that error and returns the document exactly as it was: the
apply loop is never entered, so no operation mutates the document. -/
theorem Check_failure_leaves_document_unchanged (p : Patch) (doc : JSON)
    (ops : List Operation) (e : GoErr) (h : p.Check ops = some e) :
    p.applyAny doc ops = (doc, some (.checkFailed e)) := by
  simp only [Patch.applyAny, h]

/-- Witness for C4: a list containing an unknown operation leaves the
document untouched and surfaces the unknown-operation error. -/
theorem Check_failure_leaves_document_unchanged_witness :
    NewPatch.applyAny (.obj [("a", .num 1)])
        [{ OP := some "frobnicate", Path := some "/a", Value := none, From := none }] =
      (.obj [("a", .num 1)], some (.checkFailed (.unknownOp "frobnicate"))) :=
  Check_failure_leaves_document_unchanged NewPatch (.obj [("a", .num 1)])
    [{ OP := some "frobnicate", Path := some "/a", Value := none, From := none }]
    (.unknownOp "frobnicate") rfl

/-- C7: one descent step of the navigator.  On an object it fails with
`ErrNotExists` exactly when the key is absent and otherwise yields the
key's value with a setter rewriting that key; on an array it fails with
`ErrNotExists` when the array is empty or the parsed index equals the
length (append slot) and otherwise yields the element at the parsed
index with a setter rewriting that index; on every scalar it fails with
the type-mismatch error; and with an empty segment list the visited node
is the root itself with the root-rebinding setter. -/
theorem visitPathPart_descent_spec (p : Patch) :
    (∀ m part, lookupJ m part = none →
        p.visitPathPart (.obj m) part = .error .notExists) ∧
    (∀ m part g, lookupJ m part = some g →
        p.visitPathPart (.obj m) part =
          .ok (g, fun n => .obj (objSet m part n))) ∧
    (∀ part, p.visitPathPart (.arr []) part = .error .notExists) ∧
    (∀ l part i, p.ParseArrayIndex l.length part = .ok i → i = (l.length : Int) →
        p.visitPathPart (.arr l) part = .error .notExists) ∧
    (∀ l part i, p.ParseArrayIndex l.length part = .ok i →
        ∀ (hi : i.toNat < l.length),
        p.visitPathPart (.arr l) part =
          .ok (l[i.toNat], fun n => .arr (l.set i.toNat n))) ∧
    (∀ part, p.visitPathPart .null part = .error (.typeMismatch "visit")) ∧
    (∀ b part, p.visitPathPart (.bool b) part = .error (.typeMismatch "visit")) ∧
    (∀ x part, p.visitPathPart (.num x) part = .error (.typeMismatch "visit")) ∧
    (∀ x part, p.visitPathPart (.str x) part = .error (.typeMismatch "visit")) ∧
    (∀ doc, p.VisitPath doc [] = .ok (doc, fun n => n)) := by
  refine ⟨?_, ?_, ?_, ?_, ?_, ?_, ?_, ?_, ?_, ?_⟩
  · intro m part h
    simp only [Patch.visitPathPart, h]
  · intro m part g h
    simp only [Patch.visitPathPart, h]
  · intro part
    simp [Patch.visitPathPart]
  · intro l part i hp he
    by_cases hl : l.length = 0
    · simp only [Patch.visitPathPart, hl]
      simp
    · simp only [Patch.visitPathPart, if_neg hl, hp]
      rw [if_pos he.symm]
  · intro l part i hp hi
    have hb := ParseArrayIndex_ok_bounds p l.length part i hp
    have hl : ¬ l.length = 0 := by omega
    have hne : ¬ ((l.length : Int) = i) := by omega
    simp only [Patch.visitPathPart, if_neg hl, hp, if_neg hne,
      List.getElem?_eq_getElem hi]
  · intro part; rfl
  · intro b part; rfl
  · intro x part; rfl
  · intro x part; rfl
  · intro doc; rfl

/-- Witness for C7: descending into key `"k"` of `{"k": 2}` yields the
value and the setter for that key. -/
theorem visitPathPart_descent_spec_witness :
    NewPatch.visitPathPart (.obj [("k", .num 2)]) "k" =
      .ok (.num 2, fun n => .obj (objSet [("k", .num 2)] "k" n)) :=
  (visitPathPart_descent_spec NewPatch).2.1 [("k", .num 2)] "k" (.num 2) rfl

/-- Model of `strings.Replace(s, "~1", "/", -1)`: replace every occurrence of
`~1` by `/` in one left-to-right scan (the first pass of the sequential
reading of unescaping). -/
def replaceTilde1 : List Char → List Char
  | [] => []
  | [c] => [c]
  | c :: d :: rest =>
    if c = '~' ∧ d = '1' then '/' :: replaceTilde1 rest
    else c :: replaceTilde1 (d :: rest)

/-- Model of `strings.Replace(s, "~0", "~", -1)`: replace every occurrence of
`~0` by `~` (the second pass of the sequential reading). -/
def replaceTilde0 : List Char → List Char
  | [] => []
  | [c] => [c]
  | c :: d :: rest =>
    if c = '~' ∧ d = '0' then '~' :: replaceTilde0 rest
    else c :: replaceTilde0 (d :: rest)

/-- Modelled from the spec: the segment-escaping encoder is not part of
the source (only decoding is); per RFC6901 and the spec's "inverse on
any re-encoding", escaping replaces every `~` by `~0` and every `/` by
`~1`. -/
def escapeChars : List Char → List Char
  | [] => []
  | c :: rest =>
    if c = '~' then '~' :: '0' :: escapeChars rest
    else if c = '/' then '~' :: '1' :: escapeChars rest
    else c :: escapeChars rest

/-- Modelled from the spec: string form of `escapeChars`. -/
def escapePath (s : String) : String := String.mk (escapeChars s.data)

theorem replacerPass_cons_ne (c : Char) (xs : List Char) (h : c ≠ '~') :
    replacerPass (c :: xs) = c :: replacerPass xs := by
  cases xs with
  | nil => rfl
  | cons d ds =>
    rw [replacerPass, if_neg (by tauto), if_neg (by tauto)]

theorem replaceTilde1_cons_ne (c : Char) (xs : List Char) (h : c ≠ '~') :
    replaceTilde1 (c :: xs) = c :: replaceTilde1 xs := by
  cases xs with
  | nil => rfl
  | cons d ds => rw [replaceTilde1, if_neg (by tauto)]

theorem replaceTilde0_cons_head (c : Char) (xs : List Char)
    (h : ¬ (c = '~' ∧ xs.head? = some '0')) :
    replaceTilde0 (c :: xs) = c :: replaceTilde0 xs := by
  cases xs with
  | nil => rfl
  | cons d ds =>
    rw [replaceTilde0, if_neg (by simp only [List.head?_cons, Option.some.injEq] at h; tauto)]

theorem replaceTilde1_head (d : Char) (rest : List Char) :
    (replaceTilde1 (d :: rest)).head? = some d ∨
    (replaceTilde1 (d :: rest)).head? = some '/' := by
  cases rest with
  | nil => left; rfl
  | cons e es =>
    rw [replaceTilde1]
    split
    · right; rfl
    · left; rfl

theorem replacerPass_eq_sequential : ∀ l : List Char,
    replacerPass l = replaceTilde0 (replaceTilde1 l) := by
  intro l
  induction l using replacerPass.induct with
  | case1 => rfl
  | case2 c => rfl
  | case3 c d rest h ih =>
    obtain ⟨hc, hd⟩ := h
    subst hc; subst hd
    rw [replacerPass, if_pos ⟨rfl, rfl⟩, replaceTilde1, if_pos ⟨rfl, rfl⟩,
      replaceTilde0_cons_head '/' _ (by simp), ih]
  | case4 c d rest h1 h2 ih =>
    obtain ⟨hc, hd⟩ := h2
    subst hc; subst hd
    rw [replacerPass, if_neg h1, if_pos ⟨rfl, rfl⟩]
    rw [replaceTilde1, if_neg h1, replaceTilde1_cons_ne '0' rest (by decide),
      replaceTilde0, if_pos ⟨rfl, rfl⟩, ih]
  | case5 c d rest h1 h2 ih =>
    rw [replacerPass, if_neg h1, if_neg h2]
    by_cases hc : c = '~'
    · subst hc
      have hd1 : d ≠ '1' := fun hd => h1 ⟨rfl, hd⟩
      have hd0 : d ≠ '0' := fun hd => h2 ⟨rfl, hd⟩
      rw [replaceTilde1, if_neg h1]
      rw [replaceTilde0_cons_head '~' _ ?hh, ih]
      case hh =>
        rintro ⟨-, hhead⟩
        rcases replaceTilde1_head d rest with hx | hx <;> rw [hx] at hhead <;>
          simp only [Option.some.injEq] at hhead
        · exact hd0 hhead
        · exact absurd hhead (by decide)
    · rw [replaceTilde1_cons_ne c _ hc, replaceTilde0_cons_head c _ (by tauto), ih]

theorem replacerPass_escapeChars (l : List Char) :
    replacerPass (escapeChars l) = l := by
  induction l with
  | nil => rfl
  | cons c rest ih =>
    by_cases hc : c = '~'
    · subst hc
      rw [escapeChars, if_pos rfl, replacerPass, if_neg (by decide), if_pos (by decide), ih]
    · by_cases hs : c = '/'
      · subst hs
        rw [escapeChars, if_neg (by decide), if_pos rfl,
          replacerPass, if_pos (by decide), ih]
      · rw [escapeChars, if_neg hc, if_neg hs, replacerPass_cons_ne c _ hc, ih]

/-- C8: unescaping is the total function that first replaces every
`~1` by `/` and then every `~0` by `~` (the single-pass replacer of the
source is extensionally that sequential composition); in particular
`unescape("~01") = "~1"` and not `"/"`, and unescaping inverts escaping
on every segment string. -/
theorem unescape_sequential_and_roundtrip :
    (∀ s : String, unescapePath s = String.mk (replaceTilde0 (replaceTilde1 s.data))) ∧
    unescapePath "~01" = "~1" ∧
    unescapePath "~01" ≠ "/" ∧
    (∀ s : String, unescapePath (escapePath s) = s) := by
  refine ⟨fun s => ?_, by decide, by decide, fun s => ?_⟩
  · rw [unescapePath, replacerPass_eq_sequential]
  · rw [unescapePath, escapePath]
    show String.mk (replacerPass (escapeChars s.data)) = s
    rw [replacerPass_escapeChars]

/-- The single-operation list `[{"op":"test","path":P,"value":V}]`. -/
def testOp (P : String) (V : JSON) : Operation :=
  { OP := some "test", Path := some P, Value := some V, From := none }

theorem extApply_test (p : Patch) (doc : JSON) (P : String) (V : JSON) :
    extApply p doc (testOp P V) = testApply p doc (testOp P V) := by
  simp only [extApply, testOp]
  rw [if_neg (by decide), if_neg (by decide), if_neg (by decide), if_neg (by decide),
    if_neg (by decide)]
  simp

theorem testOp_check_none (p : Patch) (P : String) (V : JSON)
    (h : (NewJSONPointer P).Check = none) : p.Check [testOp P V] = none := by
  simp only [Patch.Check, Operation.check, testOp, h]
  rw [if_neg (by decide)]
  simp only [extCheck]
  rw [if_pos (by decide)]
  simp [Patch.Check]

/-- C6: applying the single operation `{"op":"test","path":P,"value":V}`
never changes the document — whether the fetched value matches,
mismatches, or the path fails to resolve; and for a well-formed pointer,
a match succeeds, a mismatch ends the run with the abort signal
("operation stopped", from `ErrStop`), and a resolution failure under
non-strict mode likewise aborts rather than failing hard. -/
theorem test_op_never_mutates (p : Patch) (doc : JSON) (P : String) (V : JSON) :
    (p.applyAny doc [testOp P V]).1 = doc ∧
    ((NewJSONPointer P).Check = none →
      (∀ value set, p.VisitPath doc (NewJSONPointer P).Path = .ok (value, set) →
        (deepEqual value V = true → p.applyAny doc [testOp P V] = (doc, none)) ∧
        (deepEqual value V = false →
          p.applyAny doc [testOp P V] = (doc, some (.stopped .stop)))) ∧
      (∀ e, p.VisitPath doc (NewJSONPointer P).Path = .error e →
        p.StrictPathExists = false →
        p.applyAny doc [testOp P V] = (doc, some (.stopped .stop)))) := by
  constructor
  · rcases hchk : p.Check [testOp P V] with _ | e
    · simp only [Patch.applyAny, hchk]
      rw [applyOps, extApply_test]
      simp only [testApply, testOp]
      rcases hv : p.VisitPath doc (NewJSONPointer P).Path with e | ⟨value, set⟩
      · rcases hs : p.StrictPathExists with _ | _
        · simp only [hs, Bool.false_eq_true, if_false]
        · simp only [hs, if_true]
          cases e <;> simp [hs, applyOps]
      · by_cases hd : deepEqual value V = true
        · simp [hd, applyOps]
        · simp only [Bool.not_eq_true] at hd
          simp [hd, applyOps]
    · simp only [Patch.applyAny, hchk]
  · intro hptr
    have hchk := testOp_check_none p P V hptr
    constructor
    · intro value set hv
      constructor <;> intro hd <;>
        · simp only [Patch.applyAny, hchk]
          rw [applyOps, extApply_test]
          simp only [testApply, testOp, hv, hd]
          simp [applyOps]
    · intro e hv hs
      simp only [Patch.applyAny, hchk]
      rw [applyOps, extApply_test]
      simp only [testApply, testOp, hv, hs]
      simp [applyOps]

/-- Witness for C6: testing `/a` against the matching value succeeds and
leaves `{"a": 1}` unchanged. -/
theorem test_op_never_mutates_witness :
    NewPatch.applyAny (.obj [("a", .num 1)]) [testOp "/a" (.num 1)] =
      (.obj [("a", .num 1)], none) := by
  have h := ((test_op_never_mutates NewPatch (.obj [("a", .num 1)]) "/a" (.num 1)).2
    rfl).1 (.num 1) _ rfl
  exact h.1 (by simp [deepEqual])

mutual
theorem deepCopy_structural_eq : ∀ v : JSON, deepCopy v = v
  | .null => rfl
  | .bool _ => rfl
  | .num _ => rfl
  | .str _ => rfl
  | .arr l => by rw [deepCopy, deepCopyList_structural_eq l]
  | .obj m => by rw [deepCopy, deepCopyObj_structural_eq m]

theorem deepCopyList_structural_eq : ∀ l : List JSON, deepCopyList l = l
  | [] => rfl
  | x :: xs => by
    rw [deepCopyList, deepCopy_structural_eq x, deepCopyList_structural_eq xs]

theorem deepCopyObj_structural_eq : ∀ m : List (String × JSON), deepCopyObj m = m
  | [] => rfl
  | (k, v) :: rest => by
    rw [deepCopyObj, deepCopy_structural_eq v, deepCopyObj_structural_eq rest]
end

mutual
theorem deepCopyH_mono : ∀ (n : Nat) (v : HJSON), n ≤ (deepCopyH n v).1
  | n, .null => Nat.le_refl n
  | n, .bool _ => Nat.le_refl n
  | n, .num _ => Nat.le_refl n
  | n, .str _ => Nat.le_refl n
  | n, .arr _ l => by
    have := deepCopyHList_mono (n + 1) l
    simp only [deepCopyH]
    omega
  | n, .obj _ m => by
    have := deepCopyHObj_mono (n + 1) m
    simp only [deepCopyH]
    omega

theorem deepCopyHList_mono : ∀ (n : Nat) (l : List HJSON), n ≤ (deepCopyHList n l).1
  | _, [] => Nat.le_refl _
  | n, x :: xs => by
    have h1 := deepCopyH_mono n x
    have h2 := deepCopyHList_mono (deepCopyH n x).1 xs
    simp only [deepCopyHList]
    omega

theorem deepCopyHObj_mono : ∀ (n : Nat) (m : List (String × HJSON)),
    n ≤ (deepCopyHObj n m).1
  | _, [] => Nat.le_refl _
  | n, (_, v) :: rest => by
    have h1 := deepCopyH_mono n v
    have h2 := deepCopyHObj_mono (deepCopyH n v).1 rest
    simp only [deepCopyHObj]
    omega
end

mutual
theorem deepCopyH_fresh : ∀ (n : Nat) (v : HJSON) (i : Nat),
    i ∈ idsOf (deepCopyH n v).2 → n ≤ i
  | n, .null, i => by simp [deepCopyH, idsOf]
  | n, .bool _, i => by simp [deepCopyH, idsOf]
  | n, .num _, i => by simp [deepCopyH, idsOf]
  | n, .str _, i => by simp [deepCopyH, idsOf]
  | n, .arr _ l, i => by
    simp only [deepCopyH, idsOf, List.mem_cons]
    rintro (rfl | h)
    · exact Nat.le_refl i
    · have := deepCopyHList_fresh (n + 1) l i h
      omega
  | n, .obj _ m, i => by
    simp only [deepCopyH, idsOf, List.mem_cons]
    rintro (rfl | h)
    · exact Nat.le_refl i
    · have := deepCopyHObj_fresh (n + 1) m i h
      omega

theorem deepCopyHList_fresh : ∀ (n : Nat) (l : List HJSON) (i : Nat),
    i ∈ idsOfList (deepCopyHList n l).2 → n ≤ i
  | n, [], i => by simp [deepCopyHList, idsOfList]
  | n, x :: xs, i => by
    simp only [deepCopyHList, idsOfList, List.mem_append]
    rintro (h | h)
    · exact deepCopyH_fresh n x i h
    · have h2 := deepCopyHList_fresh (deepCopyH n x).1 xs i h
      have h3 := deepCopyH_mono n x
      omega

theorem deepCopyHObj_fresh : ∀ (n : Nat) (m : List (String × HJSON)) (i : Nat),
    i ∈ idsOfObj (deepCopyHObj n m).2 → n ≤ i
  | n, [], i => by simp [deepCopyHObj, idsOfObj]
  | n, (_, v) :: rest, i => by
    simp only [deepCopyHObj, idsOfObj, List.mem_append]
    rintro (h | h)
    · exact deepCopyH_fresh n v i h
    · have h2 := deepCopyHObj_fresh (deepCopyH n v).1 rest i h
      have h3 := deepCopyH_mono n v
      omega
end

mutual
theorem deepCopyH_erase : ∀ (n : Nat) (v : HJSON),
    eraseIds (deepCopyH n v).2 = eraseIds v
  | _, .null => rfl
  | _, .bool _ => rfl
  | _, .num _ => rfl
  | _, .str _ => rfl
  | n, .arr a l => by
    simp only [deepCopyH, eraseIds]
    rw [deepCopyHList_erase (n + 1) l]
  | n, .obj a m => by
    simp only [deepCopyH, eraseIds]
    rw [deepCopyHObj_erase (n + 1) m]

theorem deepCopyHList_erase : ∀ (n : Nat) (l : List HJSON),
    eraseIdsList (deepCopyHList n l).2 = eraseIdsList l
  | _, [] => rfl
  | n, x :: xs => by
    simp only [deepCopyHList, eraseIdsList]
    rw [deepCopyH_erase n x, deepCopyHList_erase (deepCopyH n x).1 xs]

theorem deepCopyHObj_erase : ∀ (n : Nat) (m : List (String × HJSON)),
    eraseIdsObj (deepCopyHObj n m).2 = eraseIdsObj m
  | _, [] => rfl
  | n, (k, v) :: rest => by
    simp only [deepCopyHObj, eraseIdsObj]
    rw [deepCopyH_erase n v, deepCopyHObj_erase (deepCopyH n v).1 rest]
end

/-- C10: the value a successful copy places at the destination is a deep
copy of the source value.  `copyApply` calls `AddValue` with
`deepCopy value` by construction; this theorem states what that clone
is: it is structurally equal to the source (in the pure model
`deepCopy` is the identity on value trees, and in the heap model
erasing allocation ids from the clone recovers the source tree), and
every container of the clone is a fresh allocation, so no container is
shared with the source — mutating through the copied location cannot
affect the source location, however deeply nested. -/
theorem copy_deep_copy_no_alias (v : HJSON) (n : Nat)
    (h : ∀ i ∈ idsOf v, i < n) :
    eraseIds (deepCopyH n v).2 = eraseIds v ∧
    (∀ i ∈ idsOf (deepCopyH n v).2, i ∉ idsOf v) ∧
    (∀ w : JSON, deepCopy w = w) := by
  refine ⟨deepCopyH_erase n v, fun i hi hmem => ?_, deepCopy_structural_eq⟩
  have h1 := deepCopyH_fresh n v i hi
  have h2 := h i hmem
  omega

/-- Witness for C10 on a nested container. -/
theorem copy_deep_copy_no_alias_witness :
    eraseIds (deepCopyH 2 (.arr 0 [.obj 1 [("k", .num 2)]])).2 =
      eraseIds (.arr 0 [.obj 1 [("k", .num 2)]]) ∧
    (∀ i ∈ idsOf (deepCopyH 2 (.arr 0 [.obj 1 [("k", .num 2)]])).2,
      i ∉ idsOf (.arr 0 [.obj 1 [("k", .num 2)]])) ∧
    (∀ w : JSON, deepCopy w = w) :=
  copy_deep_copy_no_alias (.arr 0 [.obj 1 [("k", .num 2)]]) 2 (by decide)
